import Mathlib

/-!
Verification development for `check_intersections.py`: a one-shot script that
tests whether a hardcoded three-point vessel trajectory crosses or passes near
submarine-cable routes given as GeoJSON-like MultiLineString features.

Embedding conventions:
* Python floats are embedded as exact rationals (`ℚ`); every operation of the
  script except `math.sqrt` is rational arithmetic (add, sub, mul, div,
  comparisons), so the embedding is value-faithful on exact inputs.
* `math.sqrt` is embedded as `Real.sqrt` on the (rational) squared quantity.
  The script only ever compares square roots of non-negative numbers against
  non-negative constants or against each other, which is equivalent to the
  corresponding comparison of the radicands; the analyzer pipeline is therefore
  embedded on squared distances (`point_to_segment_distance_sq`), with
  `Real.sqrt` wrappers (`distance`, `point_to_segment_distance`,
  `NearbyRecord.minDistance`) connecting to the real-valued claims.
* The GeoJSON input is embedded as a structure with the fields the script
  reads: `features`, each with `properties.name`, `properties.id` and
  `geometry.type` / `geometry.coordinates`.
-/

namespace CtrlSea

abbrev Point : Type := ℚ × ℚ

abbrev LineSegment : Type := Point × Point

/-- Python `cross_product(o, a, b)`: cross product of vectors oa and ob. -/
def cross_product (o a b : Point) : ℚ :=
  (a.1 - o.1) * (b.2 - o.2) - (a.2 - o.2) * (b.1 - o.1)

/-- Python `on_segment(p, q, r)`: whether point q lies in the bounding box
spanned by p and r. -/
def on_segment (p q r : Point) : Prop :=
  q.1 ≤ max p.1 r.1 ∧ min p.1 r.1 ≤ q.1 ∧ q.2 ≤ max p.2 r.2 ∧ min p.2 r.2 ≤ q.2

instance (p q r : Point) : Decidable (on_segment p q r) :=
  inferInstanceAs (Decidable (_ ∧ _ ∧ _ ∧ _))

/-- Python `segments_intersect(seg1, seg2)`: orientation-based segment
intersection test with collinear special cases. -/
def segments_intersect (seg1 seg2 : LineSegment) : Bool :=
  let a := seg1.1
  let b := seg1.2
  let c := seg2.1
  let d := seg2.2
  let o1 := cross_product a c d
  let o2 := cross_product b c d
  let o3 := cross_product c a b
  let o4 := cross_product d a b
  if o1 * o2 < 0 ∧ o3 * o4 < 0 then true
  else if o1 = 0 ∧ on_segment c a d then true
  else if o2 = 0 ∧ on_segment c b d then true
  else if o3 = 0 ∧ on_segment a c b then true
  else if o4 = 0 ∧ on_segment a d b then true
  else false

/-- Squared Euclidean distance; Python `distance(p1, p2)` is its square root. -/
def distance_sq (p1 p2 : Point) : ℚ :=
  (p2.1 - p1.1) * (p2.1 - p1.1) + (p2.2 - p1.2) * (p2.2 - p1.2)

/-- Python `distance(p1, p2)`: planar Euclidean distance. -/
noncomputable def distance (p1 p2 : Point) : ℝ :=
  Real.sqrt ((distance_sq p1 p2 : ℚ) : ℝ)

/-- Squared value computed by Python `point_to_segment_distance(point, segment)`:
the branch structure (degenerate segment, clamped projection parameter) is
transliterated; the final `math.sqrt(dx*dx + dy*dy)` is deferred to
`point_to_segment_distance`. -/
def point_to_segment_distance_sq (point : Point) (seg : LineSegment) : ℚ :=
  let p1 := seg.1
  let p2 := seg.2
  let A := point.1 - p1.1
  let B := point.2 - p1.2
  let C := p2.1 - p1.1
  let D := p2.2 - p1.2
  let dotv := A * C + B * D
  let len_sq := C * C + D * D
  if len_sq = 0 then distance_sq point p1
  else
    let param := dotv / len_sq
    let xx := if param < 0 then p1.1 else if param > 1 then p2.1 else p1.1 + param * C
    let yy := if param < 0 then p1.2 else if param > 1 then p2.2 else p1.2 + param * D
    let dx := point.1 - xx
    let dy := point.2 - yy
    dx * dx + dy * dy

/-- Python `point_to_segment_distance(point, segment)`: minimum distance from a
point to a line segment. -/
noncomputable def point_to_segment_distance (point : Point) (seg : LineSegment) : ℝ :=
  Real.sqrt ((point_to_segment_distance_sq point seg : ℚ) : ℝ)

/-- Specification-side description of the clamped projection: project the point
onto the infinite line through the segment's endpoints and clamp the projection
parameter to [0, 1]. -/
def clampedProj (point : Point) (seg : LineSegment) : Point :=
  let p1 := seg.1
  let p2 := seg.2
  let C := p2.1 - p1.1
  let D := p2.2 - p1.2
  let dotv := (point.1 - p1.1) * C + (point.2 - p1.2) * D
  let len_sq := C * C + D * D
  let t := max 0 (min 1 (dotv / len_sq))
  (p1.1 + t * C, p1.2 + t * D)

/-- Membership of a point in a closed segment from a to b (convex combination). -/
def onSegPt (p a b : Point) : Prop :=
  ∃ t : ℚ, 0 ≤ t ∧ t ≤ 1 ∧ p.1 = a.1 + t * (b.1 - a.1) ∧ p.2 = a.2 + t * (b.2 - a.2)

/-- The `geometry` object of a feature: the script reads `geometry['type']`
and, for MultiLineStrings, `geometry['coordinates']` as a list of line strings
(each an ordered list of lon/lat points; extra z components are never read). -/
structure Geometry where
  type : String
  coordinates : List (List Point)
deriving DecidableEq

/-- One feature of the infrastructure file: the script reads
`properties['name']`, `properties['id']` and `geometry`. -/
structure Feature where
  name : String
  id : String
  geometry : Geometry
deriving DecidableEq

/-- The infrastructure file: the script reads the `features` array. -/
structure InfrastructureData where
  features : List Feature
deriving DecidableEq

/-- Intersection record appended at lines 148-153 of the script. -/
structure IntersectionRecord where
  cableName : String
  cableId : String
  segmentIndex : ℕ
  trajectorySegment : ℕ
deriving DecidableEq

/-- Nearby record appended at lines 160-165 of the script; the script stores
`minDistance` (a square root), embedded here by its square `minDistanceSq`. -/
structure NearbyRecord where
  cableName : String
  cableId : String
  minDistanceSq : ℚ
  closestPoint : Point
deriving DecidableEq

/-- The float `minDistance` stored in a nearby record. -/
noncomputable def NearbyRecord.minDistance (r : NearbyRecord) : ℝ :=
  Real.sqrt ((r.minDistanceSq : ℚ) : ℝ)

/-- Result structure returned by `check_intersections` (lines 200-203). -/
structure AnalysisResult where
  intersections : List IntersectionRecord
  nearbyCables : List NearbyRecord
deriving DecidableEq

/-- The three hardcoded trajectory points (lon, lat), lines 108-112. -/
def trajectory_points : List Point :=
  [(12.0771658, 54.3374597), (11.9667175, 54.3310199), (11.8415427, 54.3353132)]

/-- The two trajectory segments built from consecutive trajectory points,
lines 114-117. -/
def trajectory_segments : List LineSegment :=
  [((12.0771658, 54.3374597), (11.9667175, 54.3310199)),
   ((11.9667175, 54.3310199), (11.8415427, 54.3353132))]

/-- Consecutive-pair segments of a line string: Python's
`for i in range(len(line_string) - 1)` loop forming `cable_segment`. -/
def lineSegments : List Point → List LineSegment
  | [] => []
  | [_] => []
  | p :: q :: rest => (p, q) :: lineSegments (q :: rest)

/-- Intersection records produced by one cable segment: the
`for traj_idx, traj_segment in enumerate(trajectory_segments)` loop
(`trajectorySegment` is stored 1-based). -/
def segIntersections (cableName cableId : String) (segIdx : ℕ) (cs : LineSegment) :
    List IntersectionRecord :=
  trajectory_segments.enum.filterMap fun te =>
    if segments_intersect te.2 cs then
      some ⟨cableName, cableId, segIdx, te.1 + 1⟩
    else none

/-- Nearby records produced by one cable segment: the
`for traj_point in trajectory_points` loop; `dist < 0.05` on the square root is
embedded as the equivalent comparison of squares. -/
def segNearby (cableName cableId : String) (cs : LineSegment) : List NearbyRecord :=
  trajectory_points.filterMap fun tp =>
    if point_to_segment_distance_sq tp cs < (0.05 : ℚ) ^ 2 then
      some ⟨cableName, cableId, point_to_segment_distance_sq tp cs, tp⟩
    else none

/-- Intersection records contributed by one feature: non-MultiLineString
geometries are skipped (line 133), otherwise the line strings are enumerated
(`seg_idx`) and each consecutive-pair segment is tested. -/
def featureIntersections (f : Feature) : List IntersectionRecord :=
  if f.geometry.type = "MultiLineString" then
    f.geometry.coordinates.enum.flatMap fun il =>
      (lineSegments il.2).flatMap fun cs => segIntersections f.name f.id il.1 cs
  else []

/-- Nearby records contributed by one feature. -/
def featureNearby (f : Feature) : List NearbyRecord :=
  if f.geometry.type = "MultiLineString" then
    f.geometry.coordinates.flatMap fun ls =>
      (lineSegments ls).flatMap fun cs => segNearby f.name f.id cs
  else []

/-- The full `intersections` list built by the analysis loop, in iteration
order over features, line strings, segments and trajectory segments. -/
def rawIntersections (infra : InfrastructureData) : List IntersectionRecord :=
  infra.features.flatMap featureIntersections

/-- The full `nearby_cables` list built by the analysis loop, in iteration
order over features, line strings, segments and trajectory points. -/
def rawNearby (infra : InfrastructureData) : List NearbyRecord :=
  infra.features.flatMap featureNearby

/-- The dictionary key `f"{cableId}-{segmentIndex}"` used by the intersection
deduplication (line 174). -/
def intersectionKey (r : IntersectionRecord) : String :=
  r.cableId ++ "-" ++ toString r.segmentIndex

/-- Insertion-ordered dictionary build `if key not in unique_cables` of
lines 172-176: keeps the first record for each key. -/
def dedupFirstBy : List String → List IntersectionRecord → List IntersectionRecord
  | _, [] => []
  | seen, r :: rest =>
    if intersectionKey r ∈ seen then dedupFirstBy seen rest
    else r :: dedupFirstBy (intersectionKey r :: seen) rest

/-- One step of the nearby deduplication of lines 189-192: insert if the
cableId is absent, else overwrite in place when the new distance is strictly
smaller (`unique_nearby[key]['minDistance'] > cable['minDistance']`, compared
here on squares, equivalently). -/
def upsertNearby : List NearbyRecord → NearbyRecord → List NearbyRecord
  | [], r => [r]
  | y :: ys, r =>
    if y.cableId = r.cableId then
      if r.minDistanceSq < y.minDistanceSq then r :: ys else y :: ys
    else y :: upsertNearby ys r

/-- The insertion-ordered `unique_nearby` dictionary of lines 186-192. -/
def dedupNearby (l : List NearbyRecord) : List NearbyRecord :=
  l.foldl upsertNearby []

/-- The pure content of Python `check_intersections()` as a function of the
loaded infrastructure data: the analysis loop (lines 124-165) followed by the
deduplications and the returned structure (lines 170-203). -/
def check_intersections (infra : InfrastructureData) : AnalysisResult :=
  let inters := rawIntersections infra
  let nearby := rawNearby infra
  { intersections := if inters.isEmpty then [] else dedupFirstBy [] inters
    nearbyCables := dedupNearby nearby }

/-- Cable segments of all MultiLineString features carrying a given cableId,
in iteration order. -/
def cableSegments (infra : InfrastructureData) (cid : String) : List LineSegment :=
  (infra.features.filter fun f =>
      decide (f.geometry.type = "MultiLineString" ∧ f.id = cid)).flatMap fun f =>
    f.geometry.coordinates.flatMap lineSegments

/-- The squared distances of all (trajectory point, cable segment) pairs of a
given cableId that lie strictly below the 0.05-degree threshold. -/
def nearbyCandidatesSq (infra : InfrastructureData) (cid : String) : List ℚ :=
  ((cableSegments infra cid).flatMap fun cs =>
      trajectory_points.map fun tp => point_to_segment_distance_sq tp cs).filter
    fun q => decide (q < (0.05 : ℚ) ^ 2)

/-- The `__main__` block (lines 206-214) embedded on outcomes: the body either
returns a result or raises, the handler prints the error and exits 1, and a
normal return exits 0. The pair is (exit code, printed error message). -/
def main_model (outcome : Except String AnalysisResult) : ℕ × Option String :=
  match outcome with
  | Except.ok _ => (0, none)
  | Except.error msg => (1, some msg)

/-- Two runs of the analysis on the same loaded input. -/
def runAnalysisTwice (infra : InfrastructureData) : AnalysisResult × AnalysisResult :=
  (check_intersections infra, check_intersections infra)

/-- Existence in an accumulator of a record for a given cableId whose stored
squared distance is at most q. -/
def hasLe (acc : List NearbyRecord) (cid : String) (q : ℚ) : Prop :=
  ∃ y ∈ acc, y.cableId = cid ∧ y.minDistanceSq ≤ q

/-- A one-feature infrastructure input whose single cable segment crosses the
first trajectory segment and passes within 0.05 degrees of the second
trajectory point; used to instantiate the universally quantified theorems. -/
def infra1 : InfrastructureData :=
  ⟨[⟨"Test Cable", "c1", ⟨"MultiLineString", [[(12, 54), (12, 55)]]⟩⟩]⟩

/-- The single intersection record produced by `infra1`. -/
def rec1 : IntersectionRecord := ⟨"Test Cable", "c1", 0, 1⟩

/-- The single nearby record produced by `infra1`. -/
def recN1 : NearbyRecord :=
  ⟨"Test Cable", "c1", (0.0332825 : ℚ) ^ 2, (11.9667175, 54.3310199)⟩

/-- A feature with a non-MultiLineString geometry. -/
def pointFeature : Feature := ⟨"Some Point", "p1", ⟨"Point", []⟩⟩

/-! ### Evaluation lemmas for the concrete input `infra1` -/

lemma infra1_segInter_eval :
    segIntersections "Test Cable" "c1" 0 ((12, 54), (12, 55)) = [rec1] := by
  have h1 : segments_intersect ((12.0771658, 54.3374597), (11.9667175, 54.3310199))
      ((12, 54), (12, 55)) = true := by
    norm_num [segments_intersect, cross_product, on_segment]
  have h2 : segments_intersect ((11.9667175, 54.3310199), (11.8415427, 54.3353132))
      ((12, 54), (12, 55)) = false := by
    norm_num [segments_intersect, cross_product, on_segment, min_def, max_def]
  simp [segIntersections, trajectory_segments, List.enum, List.enumFrom, h1, h2, rec1]

lemma infra1_segNearby_eval :
    segNearby "Test Cable" "c1" ((12, 54), (12, 55)) = [recN1] := by
  have h1 : ¬ (point_to_segment_distance_sq (12.0771658, 54.3374597) ((12, 54), (12, 55))
      < (0.05 : ℚ) ^ 2) := by
    norm_num [point_to_segment_distance_sq, distance_sq]
  have h2 : point_to_segment_distance_sq (11.9667175, 54.3310199) ((12, 54), (12, 55))
      = (0.0332825 : ℚ) ^ 2 := by
    norm_num [point_to_segment_distance_sq, distance_sq]
  have h2b : (point_to_segment_distance_sq (11.9667175, 54.3310199) ((12, 54), (12, 55))
      < (0.05 : ℚ) ^ 2) := by
    rw [h2]; norm_num
  have h3 : ¬ (point_to_segment_distance_sq (11.8415427, 54.3353132) ((12, 54), (12, 55))
      < (0.05 : ℚ) ^ 2) := by
    norm_num [point_to_segment_distance_sq, distance_sq]
  simp only [segNearby, trajectory_points, List.filterMap_cons, List.filterMap_nil]
  rw [if_neg h1, if_pos h2b, if_neg h3]
  simp [recN1, h2]

lemma infra1_rawIntersections : rawIntersections infra1 = [rec1] := by
  simp [rawIntersections, infra1, featureIntersections, List.enum, List.enumFrom,
    lineSegments, infra1_segInter_eval]

lemma infra1_rawNearby : rawNearby infra1 = [recN1] := by
  simp [rawNearby, infra1, featureNearby, lineSegments, infra1_segNearby_eval]

lemma infra1_intersections : (check_intersections infra1).intersections = [rec1] := by
  simp [check_intersections, infra1_rawIntersections, dedupFirstBy]

lemma infra1_nearby : (check_intersections infra1).nearbyCables = [recN1] := by
  simp [check_intersections, infra1_rawNearby, dedupNearby, upsertNearby]

/-! ### Properties of the first-wins deduplication of intersection records -/

lemma dedupFirstBy_mem :
    ∀ (seen : List String) (l : List IntersectionRecord) (r : IntersectionRecord),
      r ∈ dedupFirstBy seen l →
      intersectionKey r ∉ seen ∧
        ∃ l1 l2, l = l1 ++ r :: l2 ∧
          ∀ r' ∈ l1, intersectionKey r' ≠ intersectionKey r := by
  intro seen l
  induction l generalizing seen with
  | nil => intro r h; simp [dedupFirstBy] at h
  | cons x rest ih =>
    intro r h
    simp only [dedupFirstBy] at h
    by_cases hk : intersectionKey x ∈ seen
    · rw [if_pos hk] at h
      obtain ⟨hns, l1, l2, heq, hall⟩ := ih seen r h
      refine ⟨hns, x :: l1, l2, by rw [heq]; rfl, ?_⟩
      intro r' hr'
      rcases List.mem_cons.mp hr' with h1 | h1
      · subst h1; intro hkey; exact hns (hkey ▸ hk)
      · exact hall r' h1
    · rw [if_neg hk] at h
      rcases List.mem_cons.mp h with h1 | h1
      · subst h1; exact ⟨hk, [], rest, rfl, by simp⟩
      · obtain ⟨hns, l1, l2, heq, hall⟩ := ih _ r h1
        have hnotin : intersectionKey r ∉ seen :=
          fun hs => hns (List.mem_cons_of_mem _ hs)
        have hne : intersectionKey r ≠ intersectionKey x :=
          fun he => hns (by rw [he]; exact List.mem_cons_self _ _)
        refine ⟨hnotin, x :: l1, l2, by rw [heq]; rfl, ?_⟩
        intro r' hr'
        rcases List.mem_cons.mp hr' with h1' | h1'
        · subst h1'; exact hne.symm
        · exact hall r' h1'

lemma dedupFirstBy_pairwise :
    ∀ (seen : List String) (l : List IntersectionRecord),
      (dedupFirstBy seen l).Pairwise
        (fun r r' => intersectionKey r ≠ intersectionKey r') := by
  intro seen l
  induction l generalizing seen with
  | nil => simp [dedupFirstBy]
  | cons x rest ih =>
    simp only [dedupFirstBy]
    by_cases hk : intersectionKey x ∈ seen
    · rw [if_pos hk]; exact ih seen
    · rw [if_neg hk]
      refine List.Pairwise.cons ?_ (ih _)
      intro r hr he
      exact (dedupFirstBy_mem _ _ r hr).1 (he ▸ List.mem_cons_self _ _)

lemma intersectionKey_congr {r r' : IntersectionRecord}
    (h1 : r.cableId = r'.cableId) (h2 : r.segmentIndex = r'.segmentIndex) :
    intersectionKey r = intersectionKey r' := by
  simp [intersectionKey, h1, h2]

/-- C1: for every input, the returned intersections list keeps at most one
record per (cableId, segmentIndex) pair, namely the first one appended in
iteration order over features, line strings, segments and trajectory segments
(the order of `rawIntersections`), and it is empty when no intersections were
found. -/
theorem check_intersections_dedup_first_wins (infra : InfrastructureData) :
    (∀ r ∈ (check_intersections infra).intersections,
        ∃ l1 l2, rawIntersections infra = l1 ++ r :: l2 ∧
          ∀ r' ∈ l1,
            ¬(r'.cableId = r.cableId ∧ r'.segmentIndex = r.segmentIndex))
    ∧ (check_intersections infra).intersections.Pairwise
        (fun r r' => ¬(r.cableId = r'.cableId ∧ r.segmentIndex = r'.segmentIndex))
    ∧ (rawIntersections infra = [] →
        (check_intersections infra).intersections = []) := by
  have hres : (check_intersections infra).intersections =
      if (rawIntersections infra).isEmpty then []
      else dedupFirstBy [] (rawIntersections infra) := rfl
  refine ⟨?_, ?_, ?_⟩
  · intro r hr
    rw [hres] at hr
    by_cases he : (rawIntersections infra).isEmpty
    · rw [if_pos he] at hr; exact absurd hr (List.not_mem_nil r)
    · rw [if_neg he] at hr
      obtain ⟨-, l1, l2, heq, hall⟩ := dedupFirstBy_mem [] _ r hr
      exact ⟨l1, l2, heq, fun r' h' hc => hall r' h' (intersectionKey_congr hc.1 hc.2)⟩
  · rw [hres]
    by_cases he : (rawIntersections infra).isEmpty
    · rw [if_pos he]; exact List.Pairwise.nil
    · rw [if_neg he]
      exact (dedupFirstBy_pairwise [] _).imp
        (fun hne hc => hne (intersectionKey_congr hc.1 hc.2))
  · intro hnil
    rw [hres, hnil]
    simp

/-- Witness for C1 at the concrete input `infra1`: its single intersection
record is the first (and only) raw record with its key. -/
theorem check_intersections_dedup_first_wins_witness :
    ∃ l1 l2, rawIntersections infra1 = l1 ++ rec1 :: l2 ∧
      ∀ r' ∈ l1,
        ¬(r'.cableId = rec1.cableId ∧ r'.segmentIndex = rec1.segmentIndex) :=
  (check_intersections_dedup_first_wins infra1).1 rec1
    (by simp [infra1_intersections])

/-! ### Properties of the min-wins deduplication of nearby records -/

lemma upsertNearby_mem :
    ∀ (acc : List NearbyRecord) (x r : NearbyRecord),
      r ∈ upsertNearby acc x → r ∈ acc ∨ r = x := by
  intro acc x
  induction acc with
  | nil => intro r h; right; simpa [upsertNearby] using h
  | cons y ys ih =>
    intro r h
    simp only [upsertNearby] at h
    by_cases hid : y.cableId = x.cableId
    · rw [if_pos hid] at h
      by_cases hlt : x.minDistanceSq < y.minDistanceSq
      · rw [if_pos hlt] at h
        rcases List.mem_cons.mp h with h1 | h1
        · right; exact h1
        · left; exact List.mem_cons_of_mem _ h1
      · rw [if_neg hlt] at h; left; exact h
    · rw [if_neg hid] at h
      rcases List.mem_cons.mp h with h1 | h1
      · left; exact h1 ▸ List.mem_cons_self _ _
      · rcases ih r h1 with h2 | h2
        · left; exact List.mem_cons_of_mem _ h2
        · right; exact h2

lemma foldl_upsertNearby_mem :
    ∀ (l acc : List NearbyRecord) (r : NearbyRecord),
      r ∈ l.foldl upsertNearby acc → r ∈ acc ∨ r ∈ l := by
  intro l
  induction l with
  | nil => intro acc r h; left; exact h
  | cons x xs ih =>
    intro acc r h
    rcases ih (upsertNearby acc x) r h with h1 | h1
    · rcases upsertNearby_mem acc x r h1 with h2 | h2
      · left; exact h2
      · right; exact h2 ▸ List.mem_cons_self _ _
    · right; exact List.mem_cons_of_mem _ h1

lemma upsertNearby_pairwise :
    ∀ (acc : List NearbyRecord) (x : NearbyRecord),
      acc.Pairwise (fun a b => a.cableId ≠ b.cableId) →
      (upsertNearby acc x).Pairwise (fun a b => a.cableId ≠ b.cableId) := by
  intro acc x
  induction acc with
  | nil => intro _; simp [upsertNearby]
  | cons y ys ih =>
    intro hp
    obtain ⟨hy, hys⟩ := List.pairwise_cons.mp hp
    simp only [upsertNearby]
    by_cases hid : y.cableId = x.cableId
    · rw [if_pos hid]
      by_cases hlt : x.minDistanceSq < y.minDistanceSq
      · rw [if_pos hlt]
        exact List.pairwise_cons.mpr ⟨fun b hb => hid ▸ hy b hb, hys⟩
      · rw [if_neg hlt]; exact hp
    · rw [if_neg hid]
      refine List.pairwise_cons.mpr ⟨?_, ih hys⟩
      intro b hb
      rcases upsertNearby_mem ys x b hb with h1 | h1
      · exact hy b h1
      · rw [h1]; exact hid
lemma foldl_upsertNearby_pairwise :
    ∀ (l acc : List NearbyRecord),
      acc.Pairwise (fun a b => a.cableId ≠ b.cableId) →
      (l.foldl upsertNearby acc).Pairwise (fun a b => a.cableId ≠ b.cableId) := by
  intro l
  induction l with
  | nil => intro acc h; exact h
  | cons x xs ih => intro acc h; exact ih _ (upsertNearby_pairwise acc x h)

lemma dedupNearby_pairwise (l : List NearbyRecord) :
    (dedupNearby l).Pairwise (fun a b => a.cableId ≠ b.cableId) :=
  foldl_upsertNearby_pairwise l [] List.Pairwise.nil

lemma upsertNearby_hasLe_self :
    ∀ (acc : List NearbyRecord) (x : NearbyRecord),
      hasLe (upsertNearby acc x) x.cableId x.minDistanceSq := by
  intro acc x
  induction acc with
  | nil => exact ⟨x, by simp [upsertNearby], rfl, le_refl _⟩
  | cons y ys ih =>
    simp only [upsertNearby]
    by_cases hid : y.cableId = x.cableId
    · rw [if_pos hid]
      by_cases hlt : x.minDistanceSq < y.minDistanceSq
      · rw [if_pos hlt]
        exact ⟨x, List.mem_cons_self _ _, rfl, le_refl _⟩
      · rw [if_neg hlt]
        exact ⟨y, List.mem_cons_self _ _, hid, le_of_not_lt hlt⟩
    · rw [if_neg hid]
      obtain ⟨z, hz, hzid, hzle⟩ := ih
      exact ⟨z, List.mem_cons_of_mem _ hz, hzid, hzle⟩

lemma upsertNearby_hasLe_mono :
    ∀ (acc : List NearbyRecord) (x : NearbyRecord) (cid : String) (q : ℚ),
      hasLe acc cid q → hasLe (upsertNearby acc x) cid q := by
  intro acc x
  induction acc with
  | nil =>
    intro cid q h
    obtain ⟨z, hz, -, -⟩ := h
    exact absurd hz (List.not_mem_nil z)
  | cons y ys ih =>
    intro cid q h
    obtain ⟨z, hz, hzid, hzle⟩ := h
    simp only [upsertNearby]
    by_cases hid : y.cableId = x.cableId
    · by_cases hlt : x.minDistanceSq < y.minDistanceSq
      · rw [if_pos hid, if_pos hlt]
        rcases List.mem_cons.mp hz with h1 | h1
        · refine ⟨x, List.mem_cons_self _ _, ?_, ?_⟩
          · rw [← hid, ← h1, hzid]
          · calc x.minDistanceSq ≤ y.minDistanceSq := le_of_lt hlt
              _ = z.minDistanceSq := by rw [h1]
              _ ≤ q := hzle
        · exact ⟨z, List.mem_cons_of_mem _ h1, hzid, hzle⟩
      · rw [if_pos hid, if_neg hlt]
        exact ⟨z, hz, hzid, hzle⟩
    · rw [if_neg hid]
      rcases List.mem_cons.mp hz with h1 | h1
      · exact ⟨y, List.mem_cons_self _ _, h1 ▸ hzid, h1 ▸ hzle⟩
      · obtain ⟨w, hw, hwid, hwle⟩ := ih cid q ⟨z, h1, hzid, hzle⟩
        exact ⟨w, List.mem_cons_of_mem _ hw, hwid, hwle⟩

lemma foldl_upsertNearby_hasLe_mono :
    ∀ (l acc : List NearbyRecord) (cid : String) (q : ℚ),
      hasLe acc cid q → hasLe (l.foldl upsertNearby acc) cid q := by
  intro l
  induction l with
  | nil => intro acc cid q h; exact h
  | cons x xs ih =>
    intro acc cid q h
    exact ih _ cid q (upsertNearby_hasLe_mono acc x cid q h)

lemma foldl_upsertNearby_hasLe :
    ∀ (l acc : List NearbyRecord) (r' : NearbyRecord),
      r' ∈ l → hasLe (l.foldl upsertNearby acc) r'.cableId r'.minDistanceSq := by
  intro l
  induction l with
  | nil => intro acc r' h; exact absurd h (List.not_mem_nil r')
  | cons x xs ih =>
    intro acc r' h
    rcases List.mem_cons.mp h with h1 | h1
    · subst h1
      exact foldl_upsertNearby_hasLe_mono xs _ _ _ (upsertNearby_hasLe_self acc r')
    · exact ih _ r' h1

lemma pairwise_cableId_unique :
    ∀ (l : List NearbyRecord) (r z : NearbyRecord),
      l.Pairwise (fun a b => a.cableId ≠ b.cableId) →
      r ∈ l → z ∈ l → r.cableId = z.cableId → r = z := by
  intro l
  induction l with
  | nil => intro r z _ hr _ _; exact absurd hr (List.not_mem_nil r)
  | cons y ys ih =>
    intro r z hp hr hz hid
    obtain ⟨hy, hys⟩ := List.pairwise_cons.mp hp
    rcases List.mem_cons.mp hr with h1 | h1 <;> rcases List.mem_cons.mp hz with h2 | h2
    · rw [h1, h2]
    · exact absurd (h1 ▸ hid) (hy z h2)
    · exact absurd (h2 ▸ hid).symm (hy r h1)
    · exact ih r z hys h1 h2 hid

lemma dedupNearby_min (l : List NearbyRecord) (r : NearbyRecord)
    (h : r ∈ dedupNearby l) :
    r ∈ l ∧ ∀ r' ∈ l, r'.cableId = r.cableId →
      r.minDistanceSq ≤ r'.minDistanceSq := by
  constructor
  · rcases foldl_upsertNearby_mem l [] r h with h1 | h1
    · exact absurd h1 (List.not_mem_nil r)
    · exact h1
  · intro r' hr' hid
    obtain ⟨z, hz, hzid, hzle⟩ := foldl_upsertNearby_hasLe l [] r' hr'
    have hrz : r = z :=
      pairwise_cableId_unique _ r z (dedupNearby_pairwise l) h hz (hid ▸ hzid.symm)
    rw [hrz]
    exact hzle

/-! ### Structure of the raw nearby list -/

lemma rawNearby_mem_spec {infra : InfrastructureData} {r : NearbyRecord}
    (h : r ∈ rawNearby infra) :
    r.closestPoint ∈ trajectory_points ∧
    r.minDistanceSq < (0.05 : ℚ) ^ 2 ∧
    (∃ cs ∈ cableSegments infra r.cableId,
        point_to_segment_distance_sq r.closestPoint cs = r.minDistanceSq) ∧
    r.minDistanceSq ∈ nearbyCandidatesSq infra r.cableId := by
  obtain ⟨f, hf, hrf⟩ := List.mem_flatMap.mp h
  by_cases hmls : f.geometry.type = "MultiLineString"
  · rw [featureNearby, if_pos hmls] at hrf
    obtain ⟨ls, hls, hrls⟩ := List.mem_flatMap.mp hrf
    obtain ⟨cs, hcs, hrcs⟩ := List.mem_flatMap.mp hrls
    obtain ⟨tp, htp, hsome⟩ := List.mem_filterMap.mp hrcs
    by_cases hlt : point_to_segment_distance_sq tp cs < (0.05 : ℚ) ^ 2
    · rw [if_pos hlt] at hsome
      obtain rfl := Option.some_injective _ hsome
      have hcs' : cs ∈ cableSegments infra f.id := by
        refine List.mem_flatMap.mpr ⟨f, ?_, List.mem_flatMap.mpr ⟨ls, hls, hcs⟩⟩
        exact List.mem_filter.mpr ⟨hf, by simp [hmls]⟩
      refine ⟨htp, hlt, ⟨cs, hcs', rfl⟩, ?_⟩
      refine List.mem_filter.mpr ⟨?_, by simpa using hlt⟩
      exact List.mem_flatMap.mpr ⟨cs, hcs', List.mem_map.mpr ⟨tp, htp, rfl⟩⟩
    · rw [if_neg hlt] at hsome
      exact absurd hsome (Option.noConfusion)
  · rw [featureNearby, if_neg hmls] at hrf
    exact absurd hrf (List.not_mem_nil r)

lemma nearbyCandidatesSq_exists_raw {infra : InfrastructureData} {cid : String}
    {q : ℚ} (h : q ∈ nearbyCandidatesSq infra cid) :
    ∃ r ∈ rawNearby infra, r.cableId = cid ∧ r.minDistanceSq = q := by
  obtain ⟨hmem, hlt⟩ := List.mem_filter.mp h
  have hlt' : q < (0.05 : ℚ) ^ 2 := by simpa using hlt
  obtain ⟨cs, hcs, hq⟩ := List.mem_flatMap.mp hmem
  obtain ⟨tp, htp, htpq⟩ := List.mem_map.mp hq
  obtain ⟨f, hfmem, hcsf⟩ := List.mem_flatMap.mp hcs
  obtain ⟨hf, hfprop⟩ := List.mem_filter.mp hfmem
  have hfprop' : f.geometry.type = "MultiLineString" ∧ f.id = cid := by
    simpa using hfprop
  obtain ⟨ls, hls, hcsls⟩ := List.mem_flatMap.mp hcsf
  refine ⟨⟨f.name, f.id, q, tp⟩, ?_, hfprop'.2, rfl⟩
  refine List.mem_flatMap.mpr ⟨f, hf, ?_⟩
  rw [featureNearby, if_pos hfprop'.1]
  refine List.mem_flatMap.mpr ⟨ls, hls, ?_⟩
  refine List.mem_flatMap.mpr ⟨cs, hcsls, ?_⟩
  refine List.mem_filterMap.mpr ⟨tp, htp, ?_⟩
  rw [htpq, if_pos (htpq ▸ hlt')]
/-- C2: for every input, the returned nearbyCables list keeps at most one
record per cableId; each record's minDistance is the minimum
point-to-segment distance over all (trajectory point, cable segment) pairs of
that cableId among those strictly below 0.05 degrees (stated on the squared
distances, and on the square roots via monotonicity of `Real.sqrt`), and every
returned minDistance is strictly below 0.05. -/
theorem check_intersections_nearby_min (infra : InfrastructureData) :
    (check_intersections infra).nearbyCables.Pairwise
      (fun r r' => r.cableId ≠ r'.cableId)
    ∧ ∀ r ∈ (check_intersections infra).nearbyCables,
        r.minDistanceSq ∈ nearbyCandidatesSq infra r.cableId
        ∧ (∀ q ∈ nearbyCandidatesSq infra r.cableId, r.minDistanceSq ≤ q)
        ∧ r.minDistance < 0.05
        ∧ ∀ q ∈ nearbyCandidatesSq infra r.cableId,
            r.minDistance ≤ Real.sqrt ((q : ℚ) : ℝ) := by
  have hres : (check_intersections infra).nearbyCables
      = dedupNearby (rawNearby infra) := rfl
  constructor
  · rw [hres]; exact dedupNearby_pairwise _
  · intro r hr
    rw [hres] at hr
    obtain ⟨hraw, hmin⟩ := dedupNearby_min _ r hr
    obtain ⟨-, hlt, -, hcand⟩ := rawNearby_mem_spec hraw
    have hbound : ∀ q ∈ nearbyCandidatesSq infra r.cableId,
        r.minDistanceSq ≤ q := by
      intro q hq
      obtain ⟨r', hr', hid, hq'⟩ := nearbyCandidatesSq_exists_raw hq
      rw [← hq']
      exact hmin r' hr' hid
    refine ⟨hcand, hbound, ?_, ?_⟩
    · have h05 : (((0.05 : ℚ) ^ 2 : ℚ) : ℝ) = (0.05 : ℝ) ^ 2 := by
        push_cast
        norm_num
      have h1 : ((r.minDistanceSq : ℚ) : ℝ) < (0.05 : ℝ) ^ 2 := by
        calc ((r.minDistanceSq : ℚ) : ℝ) < (((0.05 : ℚ) ^ 2 : ℚ) : ℝ) :=
              Rat.cast_lt.mpr hlt
          _ = (0.05 : ℝ) ^ 2 := h05
      exact (Real.sqrt_lt' (by norm_num)).mpr h1
    · intro q hq
      exact Real.sqrt_le_sqrt (Rat.cast_le.mpr (hbound q hq))

/-- Witness for C2 at the concrete input `infra1`: its single nearby record's
stored squared distance is one of the below-threshold candidate distances for
its cableId. -/
theorem check_intersections_nearby_min_witness :
    recN1.minDistanceSq ∈ nearbyCandidatesSq infra1 recN1.cableId :=
  ((check_intersections_nearby_min infra1).2 recN1 (by simp [infra1_nearby])).1

/-- C10: every returned nearby record's closestPoint is one of the three
hardcoded trajectory points, and it is the query point whose distance to some
cable segment of that cableId is the stored minDistance (it is not a point
computed on the cable segment). -/
theorem nearby_closest_point_is_query_point (infra : InfrastructureData) :
    ∀ r ∈ (check_intersections infra).nearbyCables,
      r.closestPoint ∈ trajectory_points ∧
      ∃ cs ∈ cableSegments infra r.cableId,
        point_to_segment_distance_sq r.closestPoint cs = r.minDistanceSq := by
  intro r hr
  have hres : (check_intersections infra).nearbyCables
      = dedupNearby (rawNearby infra) := rfl
  rw [hres] at hr
  obtain ⟨hraw, -⟩ := dedupNearby_min _ r hr
  obtain ⟨htp, -, hex, -⟩ := rawNearby_mem_spec hraw
  exact ⟨htp, hex⟩

/-- Witness for C10 at the concrete input `infra1`: the closestPoint of its
single nearby record is the second trajectory point. -/
theorem nearby_closest_point_is_query_point_witness :
    recN1.closestPoint ∈ trajectory_points :=
  (nearby_closest_point_is_query_point infra1 recN1 (by simp [infra1_nearby])).1
/-- C7: a feature whose geometry type is not "MultiLineString" is skipped: it
contributes no intersection and no nearby records, and removing it from the
feature list leaves the analysis result unchanged. (The embedding is total, so
the skip raises no error by construction; the script's skip happens before any
access to the feature's coordinates.) -/
theorem non_multilinestring_features_skipped (f : Feature)
    (hf : f.geometry.type ≠ "MultiLineString") :
    featureIntersections f = [] ∧ featureNearby f = [] ∧
    ∀ pre suf : List Feature,
      check_intersections ⟨pre ++ f :: suf⟩ = check_intersections ⟨pre ++ suf⟩ := by
  have h1 : featureIntersections f = [] := by rw [featureIntersections, if_neg hf]
  have h2 : featureNearby f = [] := by rw [featureNearby, if_neg hf]
  refine ⟨h1, h2, ?_⟩
  intro pre suf
  have hi : rawIntersections ⟨pre ++ f :: suf⟩ = rawIntersections ⟨pre ++ suf⟩ := by
    simp [rawIntersections, h1]
  have hn : rawNearby ⟨pre ++ f :: suf⟩ = rawNearby ⟨pre ++ suf⟩ := by
    simp [rawNearby, h2]
  simp only [check_intersections, hi, hn]

/-- Witness for C7 at the concrete feature `pointFeature` (geometry type
"Point"): it contributes no records. -/
theorem non_multilinestring_features_skipped_witness :
    featureIntersections pointFeature = [] ∧ featureNearby pointFeature = [] :=
  ⟨(non_multilinestring_features_skipped pointFeature (by decide)).1,
   (non_multilinestring_features_skipped pointFeature (by decide)).2.1⟩

/-- C8: in the top-level `__main__` model, a body that raises is caught, its
message is emitted and the exit status is 1; a body that returns normally
exits with status 0 (and emits no error). -/
theorem main_model_exit_codes (outcome : Except String AnalysisResult) :
    (∀ res, outcome = Except.ok res → main_model outcome = (0, none))
    ∧ (∀ msg, outcome = Except.error msg → main_model outcome = (1, some msg))
    ∧ ((main_model outcome).1 = 0 ↔ ∃ res, outcome = Except.ok res) := by
  cases outcome with
  | ok res =>
    refine ⟨fun _ _ => rfl, ?_, ?_⟩
    · intro msg h
      exact absurd h (by simp)
    · exact ⟨fun _ => ⟨res, rfl⟩, fun _ => rfl⟩
  | error m =>
    refine ⟨?_, ?_, ?_⟩
    · intro res h
      exact absurd h (by simp)
    · intro msg h
      cases h
      rfl
    · constructor
      · intro h
        exact absurd h (by simp [main_model])
      · intro h
        obtain ⟨res, hres⟩ := h
        cases hres

/-- Witness for C8: a failing load produces exit code 1 together with the
error message. -/
theorem main_model_exit_codes_witness :
    main_model (Except.error "No such file or directory")
      = (1, some "No such file or directory") :=
  (main_model_exit_codes (Except.error "No such file or directory")).2.1
    "No such file or directory" rfl

/-- C9: the analysis is deterministic and idempotent: two runs on the same
loaded input produce identical results (hence identical order-independent
result sets). In this embedding `check_intersections` is a pure total
function of the input, so it has no side effects beyond constructing its
result, and determinism is definitional. -/
theorem analysis_deterministic_idempotent (infra : InfrastructureData) :
    (runAnalysisTwice infra).1 = (runAnalysisTwice infra).2
    ∧ (runAnalysisTwice infra).1.intersections
        = (runAnalysisTwice infra).2.intersections
    ∧ (runAnalysisTwice infra).1.nearbyCables
        = (runAnalysisTwice infra).2.nearbyCables :=
  ⟨rfl, rfl, rfl⟩
/-! ### Geometry helper lemmas -/

lemma sq_add_sq_pos {x y : ℚ} (h : x ≠ 0 ∨ y ≠ 0) : 0 < x ^ 2 + y ^ 2 := by
  rcases h with h | h
  · rcases h.lt_or_lt with h1 | h1 <;> nlinarith [sq_nonneg y]
  · rcases h.lt_or_lt with h1 | h1 <;> nlinarith [sq_nonneg x]

lemma cross_aux {u1 u2 x1 x2 y1 y2 : ℚ} (hu : u1 ≠ 0 ∨ u2 ≠ 0)
    (hx : u1 * x2 - u2 * x1 = 0) (hy : u1 * y2 - u2 * y1 = 0) :
    x1 * y2 - x2 * y1 = 0 := by
  rcases hu with h | h
  · have h2 : u1 * (x1 * y2 - x2 * y1) = 0 := by linear_combination x1 * hy - y1 * hx
    rcases mul_eq_zero.mp h2 with h3 | h3
    · exact absurd h3 h
    · exact h3
  · have h2 : u2 * (x1 * y2 - x2 * y1) = 0 := by linear_combination x2 * hy - y2 * hx
    rcases mul_eq_zero.mp h2 with h3 | h3
    · exact absurd h3 h
    · exact h3

lemma on_segment_of_products {p q r : Point}
    (hx : (q.1 - p.1) * (q.1 - r.1) ≤ 0) (hy : (q.2 - p.2) * (q.2 - r.2) ≤ 0) :
    on_segment p q r := by
  rw [on_segment]
  refine ⟨?_, ?_, ?_, ?_⟩
  · rcases mul_nonpos_iff.mp hx with ⟨h1, h2⟩ | ⟨h1, h2⟩
    · exact le_max_of_le_right (by linarith)
    · exact le_max_of_le_left (by linarith)
  · rcases mul_nonpos_iff.mp hx with ⟨h1, h2⟩ | ⟨h1, h2⟩
    · exact min_le_of_left_le (by linarith)
    · exact min_le_of_right_le (by linarith)
  · rcases mul_nonpos_iff.mp hy with ⟨h1, h2⟩ | ⟨h1, h2⟩
    · exact le_max_of_le_right (by linarith)
    · exact le_max_of_le_left (by linarith)
  · rcases mul_nonpos_iff.mp hy with ⟨h1, h2⟩ | ⟨h1, h2⟩
    · exact min_le_of_left_le (by linarith)
    · exact min_le_of_right_le (by linarith)

lemma segments_intersect_of_special {a b c d : Point}
    (h : (cross_product a c d = 0 ∧ on_segment c a d) ∨
         (cross_product b c d = 0 ∧ on_segment c b d) ∨
         (cross_product c a b = 0 ∧ on_segment a c b) ∨
         (cross_product d a b = 0 ∧ on_segment a d b)) :
    segments_intersect (a, b) (c, d) = true := by
  simp only [segments_intersect]
  split_ifs with h1 h2 h3 h4 h5
  · rfl
  · rfl
  · rfl
  · rfl
  · rfl
  · rcases h with h | h | h | h
    exacts [absurd h h2, absurd h h3, absurd h h4, absurd h h5]

lemma interval_overlap_cases {s u t : ℚ} (ht0 : 0 ≤ t) (ht1 : t ≤ 1)
    (hover : (t - s) * (t - u) ≤ 0) :
    (0 ≤ s ∧ s ≤ 1) ∨ (0 ≤ u ∧ u ≤ 1) ∨ s * u ≤ 0 ∨ (1 - s) * (1 - u) ≤ 0 := by
  rcases le_total s u with h | h
  · have hst : s ≤ t := by
      by_contra hc
      push_neg at hc
      have h1 : 0 < s - t := by linarith
      have h2 : 0 < u - t := by linarith
      nlinarith [mul_pos h1 h2]
    have htu : t ≤ u := by
      by_contra hc
      push_neg at hc
      have h1 : 0 < t - s := by linarith
      have h2 : 0 < t - u := by linarith
      nlinarith [mul_pos h1 h2]
    rcases le_or_lt 0 s with hs | hs
    · exact Or.inl ⟨hs, by linarith⟩
    · rcases le_or_lt u 1 with hu | hu
      · exact Or.inr (Or.inl ⟨by linarith, hu⟩)
      · exact Or.inr (Or.inr (Or.inl
          (le_of_lt (mul_neg_of_neg_of_pos hs (by linarith)))))
  · have hut : u ≤ t := by
      by_contra hc
      push_neg at hc
      have h1 : 0 < u - t := by linarith
      have h2 : 0 < s - t := by linarith
      nlinarith [mul_pos h1 h2]
    have hts : t ≤ s := by
      by_contra hc
      push_neg at hc
      have h1 : 0 < t - u := by linarith
      have h2 : 0 < t - s := by linarith
      nlinarith [mul_pos h1 h2]
    rcases le_or_lt 0 u with hu | hu
    · exact Or.inr (Or.inl ⟨hu, by linarith⟩)
    · rcases le_or_lt s 1 with hs | hs
      · exact Or.inl ⟨by linarith, hs⟩
      · exact Or.inr (Or.inr (Or.inl
          (le_of_lt (mul_neg_of_pos_of_neg (by linarith) hu))))
/-- C3: with all four orientations nonzero, `segments_intersect` returns true
iff both orientation products are strictly negative; and for parallel
segments on distinct lines (non-collinear, hence non-overlapping) it returns
false. -/
theorem segments_intersect_general_position (a b c d : Point) :
    (cross_product a c d ≠ 0 → cross_product b c d ≠ 0 →
      cross_product c a b ≠ 0 → cross_product d a b ≠ 0 →
      (segments_intersect (a, b) (c, d) = true ↔
        cross_product a c d * cross_product b c d < 0 ∧
        cross_product c a b * cross_product d a b < 0))
    ∧ ((b.1 - a.1) * (d.2 - c.2) - (b.2 - a.2) * (d.1 - c.1) = 0 →
       cross_product c d a ≠ 0 →
       segments_intersect (a, b) (c, d) = false) := by
  constructor
  · intro ho1 ho2 ho3 ho4
    simp only [segments_intersect]
    split_ifs with h1 h2 h3 h4 h5
    · exact iff_of_true rfl h1
    · exact absurd h2.1 ho1
    · exact absurd h3.1 ho2
    · exact absurd h4.1 ho3
    · exact absurd h5.1 ho4
    · exact iff_of_false (by simp) h1
  · intro hpar hoff
    have g : (d.1 - c.1) * (a.2 - c.2) - (d.2 - c.2) * (a.1 - c.1) ≠ 0 := by
      simpa [cross_product] using hoff
    have ho1 : cross_product a c d ≠ 0 := by
      simp only [cross_product]
      intro hh
      exact g (by linear_combination hh)
    have he : cross_product b c d = cross_product a c d := by
      simp only [cross_product]
      linear_combination -hpar
    simp only [segments_intersect]
    split_ifs with h1 h2 h3 h4 h5
    · rw [he] at h1
      exact absurd h1.1 (not_lt.mpr (le_of_lt (mul_self_pos.mpr ho1)))
    · exact absurd h2.1 ho1
    · rw [he] at h3
      exact absurd h3.1 ho1
    · rcases eq_or_ne a b with hab | hab
      · have h42 := h4.2
        rw [on_segment] at h42
        obtain ⟨hx1, hx2, hy1, hy2⟩ := h42
        rw [← hab] at hx1 hx2 hy1 hy2
        simp only [max_self, min_self] at hx1 hx2 hy1 hy2
        have hc1 : c.1 = a.1 := le_antisymm hx1 hx2
        have hc2 : c.2 = a.2 := le_antisymm hy1 hy2
        apply g
        rw [hc1, hc2]
        ring
      · have hcomp : b.1 - a.1 ≠ 0 ∨ b.2 - a.2 ≠ 0 := by
          by_contra hc
          push_neg at hc
          exact hab (Prod.ext_iff.mpr ⟨by linarith [hc.1], by linarith [hc.2]⟩)
        have h40 := h4.1
        simp only [cross_product] at h40
        have hx : (b.1 - a.1) * (c.2 - a.2) - (b.2 - a.2) * (c.1 - a.1) = 0 := by
          linear_combination h40
        have hcon := cross_aux hcomp hx hpar
        apply g
        linear_combination hcon
    · rcases eq_or_ne a b with hab | hab
      · have h52 := h5.2
        rw [on_segment] at h52
        obtain ⟨hx1, hx2, hy1, hy2⟩ := h52
        rw [← hab] at hx1 hx2 hy1 hy2
        simp only [max_self, min_self] at hx1 hx2 hy1 hy2
        have hd1 : d.1 = a.1 := le_antisymm hx1 hx2
        have hd2 : d.2 = a.2 := le_antisymm hy1 hy2
        apply g
        rw [hd1, hd2]
        ring
      · have hcomp : b.1 - a.1 ≠ 0 ∨ b.2 - a.2 ≠ 0 := by
          by_contra hc
          push_neg at hc
          exact hab (Prod.ext_iff.mpr ⟨by linarith [hc.1], by linarith [hc.2]⟩)
        have h50 := h5.1
        simp only [cross_product] at h50
        have hx : (b.1 - a.1) * (d.2 - a.2) - (b.2 - a.2) * (d.1 - a.1) = 0 := by
          linear_combination h50
        have hcon := cross_aux hcomp hx hpar
        apply g
        linear_combination hcon
    · rfl

/-- Witness for C3: two crossing diagonals are in general position and the
orientation products are negative, so the test returns true. -/
theorem segments_intersect_general_position_witness :
    segments_intersect ((0, 0), (2, 2)) ((0, 2), (2, 0)) = true :=
  ((segments_intersect_general_position (0, 0) (2, 2) (0, 2) (2, 0)).1
    (by norm_num [cross_product]) (by norm_num [cross_product])
    (by norm_num [cross_product]) (by norm_num [cross_product])).mpr
    (by norm_num [cross_product])
/-- C4 helper is below; C5: two segments sharing an endpoint (in particular
sharing exactly one endpoint with no other common point) always make
`segments_intersect` return true, and the concrete example of the spec holds. -/
theorem segments_intersect_shared_endpoint :
    (∀ a b c d x : Point, (x = a ∨ x = b) → (x = c ∨ x = d) →
      (∀ p : Point, onSegPt p a b → onSegPt p c d → p = x) →
      segments_intersect (a, b) (c, d) = true)
    ∧ segments_intersect ((0, 0), (1, 1)) ((1, 1), (2, 0)) = true := by
  constructor
  · intro a b c d x h1 h2 _
    apply segments_intersect_of_special
    rcases h1 with h1 | h1 <;> rcases h2 with h2 | h2 <;> subst h1
    · -- a = c
      refine Or.inl ⟨?_, on_segment_of_products ?_ ?_⟩
      · rw [← h2]; simp only [cross_product]; ring
      · exact le_of_eq (by rw [← h2]; ring)
      · exact le_of_eq (by rw [← h2]; ring)
    · -- a = d
      refine Or.inl ⟨?_, on_segment_of_products ?_ ?_⟩
      · rw [← h2]; simp only [cross_product]; ring
      · exact le_of_eq (by rw [← h2]; ring)
      · exact le_of_eq (by rw [← h2]; ring)
    · -- b = c
      refine Or.inr (Or.inl ⟨?_, on_segment_of_products ?_ ?_⟩)
      · rw [← h2]; simp only [cross_product]; ring
      · exact le_of_eq (by rw [← h2]; ring)
      · exact le_of_eq (by rw [← h2]; ring)
    · -- b = d
      refine Or.inr (Or.inl ⟨?_, on_segment_of_products ?_ ?_⟩)
      · rw [← h2]; simp only [cross_product]; ring
      · exact le_of_eq (by rw [← h2]; ring)
      · exact le_of_eq (by rw [← h2]; ring)
  · norm_num [segments_intersect, cross_product, on_segment, min_def, max_def]

/-- Witness for C5: the segments ((0,0),(1,0)) and ((1,0),(1,5)) share exactly
the endpoint (1,0) and no other point, and the test returns true. -/
theorem segments_intersect_shared_endpoint_witness :
    segments_intersect ((0, 0), (1, 0)) ((1, 0), (1, 5)) = true :=
  segments_intersect_shared_endpoint.1 (0, 0) (1, 0) (1, 0) (1, 5) (1, 0)
    (Or.inr rfl) (Or.inl rfl)
    (by
      intro p hp hq
      obtain ⟨t, -, -, hp1, hp2⟩ := hp
      obtain ⟨u, -, -, hq1, hq2⟩ := hq
      norm_num at hp2 hq1
      exact Prod.ext_iff.mpr ⟨hq1, hp2⟩)
set_option maxHeartbeats 1600000 in
/-- C4: for collinear (all four orientations zero), overlapping (sharing a
point) segments, `segments_intersect` returns true; and the spec's concrete
collinear overlap example holds. -/
theorem segments_intersect_collinear_overlap :
    (∀ a b c d p : Point,
      cross_product a c d = 0 → cross_product b c d = 0 →
      cross_product c a b = 0 → cross_product d a b = 0 →
      onSegPt p a b → onSegPt p c d →
      segments_intersect (a, b) (c, d) = true)
    ∧ segments_intersect ((0, 0), (2, 0)) ((1, 0), (3, 0)) = true := by
  constructor
  · intro a b c d p h1 h2 h3 h4 hp hq
    obtain ⟨t, ht0, ht1, hp1, hp2⟩ := hp
    obtain ⟨r, hr0, hr1, hq1, hq2⟩ := hq
    apply segments_intersect_of_special
    rcases eq_or_ne a b with hab | hab
    · -- degenerate first segment: p = a, use the o1 special case
      have hb1 : b.1 = a.1 := by rw [hab]
      have hb2 : b.2 = a.2 := by rw [hab]
      rw [hb1] at hp1
      rw [hb2] at hp2
      have e1 : p.1 = a.1 := by linear_combination hp1
      have e2 : p.2 = a.2 := by linear_combination hp2
      refine Or.inl ⟨h1, on_segment_of_products ?_ ?_⟩
      · have f1 : a.1 - c.1 = r * (d.1 - c.1) := by linear_combination hq1 - e1
        have f2 : a.1 - d.1 = (r - 1) * (d.1 - c.1) := by linear_combination hq1 - e1
        rw [f1, f2]
        nlinarith [mul_nonneg hr0 (by linarith : (0:ℚ) ≤ 1 - r),
          sq_nonneg (d.1 - c.1)]
      · have f1 : a.2 - c.2 = r * (d.2 - c.2) := by linear_combination hq2 - e2
        have f2 : a.2 - d.2 = (r - 1) * (d.2 - c.2) := by linear_combination hq2 - e2
        rw [f1, f2]
        nlinarith [mul_nonneg hr0 (by linarith : (0:ℚ) ≤ 1 - r),
          sq_nonneg (d.2 - c.2)]
    · rcases eq_or_ne c d with hcd | hcd
      · -- degenerate second segment: p = c, use the o3 special case
        have hd1 : d.1 = c.1 := by rw [hcd]
        have hd2 : d.2 = c.2 := by rw [hcd]
        rw [hd1] at hq1
        rw [hd2] at hq2
        have e1 : p.1 = c.1 := by linear_combination hq1
        have e2 : p.2 = c.2 := by linear_combination hq2
        refine Or.inr (Or.inr (Or.inl ⟨h3, on_segment_of_products ?_ ?_⟩))
        · have f1 : c.1 - a.1 = t * (b.1 - a.1) := by linear_combination hp1 - e1
          have f2 : c.1 - b.1 = (t - 1) * (b.1 - a.1) := by linear_combination hp1 - e1
          rw [f1, f2]
          nlinarith [mul_nonneg ht0 (by linarith : (0:ℚ) ≤ 1 - t),
            sq_nonneg (b.1 - a.1)]
        · have f1 : c.2 - a.2 = t * (b.2 - a.2) := by linear_combination hp2 - e2
          have f2 : c.2 - b.2 = (t - 1) * (b.2 - a.2) := by linear_combination hp2 - e2
          rw [f1, f2]
          nlinarith [mul_nonneg ht0 (by linarith : (0:ℚ) ≤ 1 - t),
            sq_nonneg (b.2 - a.2)]
      · -- both segments nondegenerate: parametrize everything on the line ab
        have hcomp : b.1 - a.1 ≠ 0 ∨ b.2 - a.2 ≠ 0 := by
          by_contra hc
          push_neg at hc
          exact hab (Prod.ext_iff.mpr ⟨by linarith [hc.1], by linarith [hc.2]⟩)
        have g3 := h3
        have g4 := h4
        simp only [cross_product] at g3 g4
        have hvc : (b.1 - a.1) * (c.2 - a.2) - (b.2 - a.2) * (c.1 - a.1) = 0 := by
          linear_combination g3
        have hvd : (b.1 - a.1) * (d.2 - a.2) - (b.2 - a.2) * (d.1 - a.1) = 0 := by
          linear_combination g4
        obtain ⟨s, hs1, hs2⟩ :
            ∃ s : ℚ, c.1 = a.1 + s * (b.1 - a.1) ∧ c.2 = a.2 + s * (b.2 - a.2) := by
          rcases hcomp with hv | hv
          · refine ⟨(c.1 - a.1) / (b.1 - a.1), by field_simp, ?_⟩
            field_simp
            linear_combination hvc
          · refine ⟨(c.2 - a.2) / (b.2 - a.2), ?_, by field_simp⟩
            field_simp
            linear_combination -hvc
        obtain ⟨u, hu1, hu2⟩ :
            ∃ u : ℚ, d.1 = a.1 + u * (b.1 - a.1) ∧ d.2 = a.2 + u * (b.2 - a.2) := by
          rcases hcomp with hv | hv
          · refine ⟨(d.1 - a.1) / (b.1 - a.1), by field_simp, ?_⟩
            field_simp
            linear_combination hvd
          · refine ⟨(d.2 - a.2) / (b.2 - a.2), ?_, by field_simp⟩
            field_simp
            linear_combination -hvd
        have hkey : t - s = r * (u - s) := by
          rcases hcomp with hv | hv
          · have e : (t - s - r * (u - s)) * (b.1 - a.1) = 0 := by
              linear_combination hq1 - hp1 + (1 - r) * hs1 + r * hu1
            rcases mul_eq_zero.mp e with h' | h'
            · linarith
            · exact absurd h' hv
          · have e : (t - s - r * (u - s)) * (b.2 - a.2) = 0 := by
              linear_combination hq2 - hp2 + (1 - r) * hs2 + r * hu2
            rcases mul_eq_zero.mp e with h' | h'
            · linarith
            · exact absurd h' hv
        have hkey2 : t - u = (r - 1) * (u - s) := by linear_combination hkey
        have hover : (t - s) * (t - u) ≤ 0 := by
          rw [hkey, hkey2]
          nlinarith [mul_nonneg (mul_nonneg hr0 (by linarith : (0:ℚ) ≤ 1 - r))
            (sq_nonneg (u - s))]
        rcases interval_overlap_cases ht0 ht1 hover with
          ⟨hsl, hsr⟩ | ⟨hul, hur⟩ | hsu | hsu1
        · -- c lies in the bounding box of (a, b): o3 special case
          refine Or.inr (Or.inr (Or.inl ⟨h3, on_segment_of_products ?_ ?_⟩))
          · have f1 : c.1 - a.1 = s * (b.1 - a.1) := by linear_combination hs1
            have f2 : c.1 - b.1 = (s - 1) * (b.1 - a.1) := by linear_combination hs1
            rw [f1, f2]
            nlinarith [mul_nonneg hsl (by linarith : (0:ℚ) ≤ 1 - s),
              sq_nonneg (b.1 - a.1)]
          · have f1 : c.2 - a.2 = s * (b.2 - a.2) := by linear_combination hs2
            have f2 : c.2 - b.2 = (s - 1) * (b.2 - a.2) := by linear_combination hs2
            rw [f1, f2]
            nlinarith [mul_nonneg hsl (by linarith : (0:ℚ) ≤ 1 - s),
              sq_nonneg (b.2 - a.2)]
        · -- d lies in the bounding box of (a, b): o4 special case
          refine Or.inr (Or.inr (Or.inr ⟨h4, on_segment_of_products ?_ ?_⟩))
          · have f1 : d.1 - a.1 = u * (b.1 - a.1) := by linear_combination hu1
            have f2 : d.1 - b.1 = (u - 1) * (b.1 - a.1) := by linear_combination hu1
            rw [f1, f2]
            nlinarith [mul_nonneg hul (by linarith : (0:ℚ) ≤ 1 - u),
              sq_nonneg (b.1 - a.1)]
          · have f1 : d.2 - a.2 = u * (b.2 - a.2) := by linear_combination hu2
            have f2 : d.2 - b.2 = (u - 1) * (b.2 - a.2) := by linear_combination hu2
            rw [f1, f2]
            nlinarith [mul_nonneg hul (by linarith : (0:ℚ) ≤ 1 - u),
              sq_nonneg (b.2 - a.2)]
        · -- a lies in the bounding box of (c, d): o1 special case
          refine Or.inl ⟨h1, on_segment_of_products ?_ ?_⟩
          · have f1 : a.1 - c.1 = -s * (b.1 - a.1) := by linear_combination -hs1
            have f2 : a.1 - d.1 = -u * (b.1 - a.1) := by linear_combination -hu1
            rw [f1, f2]
            nlinarith [mul_nonneg (neg_nonneg.mpr hsu) (sq_nonneg (b.1 - a.1))]
          · have f1 : a.2 - c.2 = -s * (b.2 - a.2) := by linear_combination -hs2
            have f2 : a.2 - d.2 = -u * (b.2 - a.2) := by linear_combination -hu2
            rw [f1, f2]
            nlinarith [mul_nonneg (neg_nonneg.mpr hsu) (sq_nonneg (b.2 - a.2))]
        · -- b lies in the bounding box of (c, d): o2 special case
          refine Or.inr (Or.inl ⟨h2, on_segment_of_products ?_ ?_⟩)
          · have f1 : b.1 - c.1 = (1 - s) * (b.1 - a.1) := by linear_combination -hs1
            have f2 : b.1 - d.1 = (1 - u) * (b.1 - a.1) := by linear_combination -hu1
            rw [f1, f2]
            nlinarith [mul_nonneg (neg_nonneg.mpr hsu1) (sq_nonneg (b.1 - a.1))]
          · have f1 : b.2 - c.2 = (1 - s) * (b.2 - a.2) := by linear_combination -hs2
            have f2 : b.2 - d.2 = (1 - u) * (b.2 - a.2) := by linear_combination -hu2
            rw [f1, f2]
            nlinarith [mul_nonneg (neg_nonneg.mpr hsu1) (sq_nonneg (b.2 - a.2))]
  · norm_num [segments_intersect, cross_product, on_segment, min_def, max_def]

/-- Witness for C4: the collinear overlapping segments ((0,0),(2,0)) and
((1,0),(4,0)) share the point (1,0) and the test returns true. -/
theorem segments_intersect_collinear_overlap_witness :
    segments_intersect ((0, 0), (2, 0)) ((1, 0), (4, 0)) = true :=
  segments_intersect_collinear_overlap.1 (0, 0) (2, 0) (1, 0) (4, 0) (1, 0)
    (by norm_num [cross_product]) (by norm_num [cross_product])
    (by norm_num [cross_product]) (by norm_num [cross_product])
    ⟨1/2, by norm_num, by norm_num, by norm_num, by norm_num⟩
    ⟨0, le_refl 0, by norm_num, by norm_num, by norm_num⟩
lemma point_to_segment_distance_sq_eq_clamped (pt : Point) (seg : LineSegment) :
    point_to_segment_distance_sq pt seg = distance_sq pt (clampedProj pt seg) := by
  obtain ⟨px, py⟩ := pt
  obtain ⟨⟨x1, y1⟩, x2, y2⟩ := seg
  simp only [point_to_segment_distance_sq, clampedProj, distance_sq]
  by_cases h0 : (x2 - x1) * (x2 - x1) + (y2 - y1) * (y2 - y1) = 0
  · rw [if_pos h0, h0, div_zero]
    have h1 : min (1 : ℚ) 0 = 0 := by norm_num
    have h2 : max (0 : ℚ) 0 = 0 := by norm_num
    rw [h1, h2]
    ring
  · rw [if_neg h0]
    set param := ((px - x1) * (x2 - x1) + (py - y1) * (y2 - y1)) /
      ((x2 - x1) * (x2 - x1) + (y2 - y1) * (y2 - y1)) with hparam
    by_cases hio : param < 0
    · simp only [if_pos hio]
      rw [min_eq_right (le_of_lt (lt_of_lt_of_le hio zero_le_one)),
        max_eq_left (le_of_lt hio)]
      ring
    · by_cases hi1 : param > 1
      · simp only [if_neg hio, if_pos hi1]
        rw [min_eq_left (le_of_lt hi1), max_eq_right zero_le_one]
        ring
      · simp only [if_neg hio, if_neg hi1]
        rw [min_eq_right (not_lt.mp hi1), max_eq_right (not_lt.mp hio)]
        ring

/-- C6: `point_to_segment_distance` returns the Euclidean distance from the
point to the projection of the point onto the segment's line with the
projection parameter clamped to [0, 1]; for a degenerate segment it returns
the plain point-to-point distance to the (unique) endpoint; and the concrete
example of the spec evaluates to 1. -/
theorem point_to_segment_distance_spec :
    (∀ (pt : Point) (seg : LineSegment),
        point_to_segment_distance pt seg = distance pt (clampedProj pt seg))
    ∧ (∀ (pt : Point) (seg : LineSegment), seg.1 = seg.2 →
        point_to_segment_distance pt seg = distance pt seg.1)
    ∧ point_to_segment_distance (1, 1) ((0, 0), (2, 0)) = 1 := by
  refine ⟨?_, ?_, ?_⟩
  · intro pt seg
    rw [point_to_segment_distance, distance, point_to_segment_distance_sq_eq_clamped]
  · intro pt seg h
    rw [point_to_segment_distance, distance]
    have hC : seg.2.1 - seg.1.1 = 0 := by rw [h]; ring
    have hD : seg.2.2 - seg.1.2 = 0 := by rw [h]; ring
    have hsq : point_to_segment_distance_sq pt seg = distance_sq pt seg.1 := by
      simp only [point_to_segment_distance_sq]
      rw [hC, hD]
      norm_num
    rw [hsq]
  · have hsq : point_to_segment_distance_sq (1, 1) ((0, 0), (2, 0)) = 1 := by
      norm_num [point_to_segment_distance_sq, distance_sq]
    rw [point_to_segment_distance, hsq, Rat.cast_one, Real.sqrt_one]

/-- Witness for C6 at a concrete degenerate segment: the returned value is the
plain distance to the repeated endpoint. -/
theorem point_to_segment_distance_spec_witness :
    point_to_segment_distance (3, 4) ((5, 5), (5, 5)) = distance (3, 4) (5, 5) :=
  point_to_segment_distance_spec.2.1 (3, 4) ((5, 5), (5, 5)) rfl
end CtrlSea
